import Mathlib

/-!
Verification of the cell-packing layout engine (`mvc/widgets/cellpack.py`).

The development shallowly embeds the layout subsystem: margins, the linear
`Box` packer with its extra-space distribution, the fixed `Table` grid packer,
the z-order `Stack`, and the absolute-position `Layout` record.  Python
integers are modelled as `Int` (Python ints are unbounded, so no wraparound is
involved); Python exceptions (`TypeError`, `ValueError`, `IndexError`,
`AttributeError`, `NotImplementedError`) are modelled with `Except String`;
`None`-able values are modelled with `Option`.
-/

/-- `Margin.__init__`: derived from a 4-tuple `(top, right, bottom, left)` or
`None` (all-zero).  Fields keep the source attribute names. -/
structure Margin where
  margin_left : Int
  margin_top : Int
  margin_width : Int
  margin_height : Int
deriving DecidableEq

/-- `Margin(margin)`: `margin` is `None` or the 4-tuple `(top, right, bottom,
left)`; the constructor stores `margin[3]`, `margin[0]`, `margin[1]+margin[3]`
and `margin[0]+margin[2]`. -/
def Margin.make (margin : Option (Int × Int × Int × Int)) : Margin :=
  match margin with
  | none => { margin_left := 0, margin_top := 0, margin_width := 0, margin_height := 0 }
  | some (t, r, b, l) =>
      { margin_left := l, margin_top := t, margin_width := r + l, margin_height := t + b }

/-- `Margin.inner_rect(x, y, width, height)`: the inner box. -/
def Margin.inner_rect (m : Margin) (x y width height : Int) : Int × Int × Int × Int :=
  (x + m.margin_left, y + m.margin_top,
   width - m.margin_width, height - m.margin_height)

/-- `Margin.outer_size(inner_size)`: the outer width and height. -/
def Margin.outer_size (m : Margin) (inner_size : Int × Int) : Int × Int :=
  (inner_size.1 + m.margin_width, inner_size.2 + m.margin_height)

/-- `Margin.point_in_margin(x, y, width, height)`. -/
def Margin.point_in_margin (m : Margin) (x y width height : Int) : Bool :=
  decide ((0 ≤ x - m.margin_left ∧ x - m.margin_left < width - m.margin_width) ∧
          (0 ≤ y - m.margin_top ∧ y - m.margin_top < height - m.margin_height))

/-- A leaf child value as seen by the packers: `wid` distinguishes instances,
`hasDraw`/`hasGetSize` model `hasattr(child, 'draw')` and
`hasattr(child, 'get_size')`, and `size` is the pair `child.get_size()`
returns when the attribute is present. -/
structure Widget where
  wid : Nat
  hasDraw : Bool
  hasGetSize : Bool
  size : Int × Int
deriving DecidableEq

/-- A `Box` child slot: `Packing(child, expand)` or `WhitespacePacking(size,
expand)`.  Sizes are taken in `(length, breadth)` coordinates along the
packing axis, i.e. after `self._translate`: `HBox._translate` is the identity
and `VBox._translate` is the swap, so the development works in translated
coordinates once and for all (`Packing.calc_size(translate)` is
`translate(*child.get_size())`). -/
inductive BoxChild where
  | packing (child : Widget) (expand : Bool)
  | whitespace (size : Int) (expand : Bool)
deriving DecidableEq

/-- `Packing.calc_size` / `WhitespacePacking.calc_size` in translated
coordinates: a packing reports its child's size, whitespace reports
`(size, 0)`. -/
def BoxChild.calc_size : BoxChild → Int × Int
  | .packing child _ => child.size
  | .whitespace size _ => (size, 0)

/-- The `expand` flag of a child slot. -/
def BoxChild.expand : BoxChild → Bool
  | .packing _ e => e
  | .whitespace _ e => e

/-- `Box.__init__(spacing)` state: the two packing groups.  The source also
keeps an `expand_count` attribute incremented by each `pack*` call; it always
equals the derived count `Box.expand_count` below, so the embedding derives
it instead of storing it. -/
structure Box where
  spacing : Int
  children : List BoxChild
  children_end : List BoxChild
deriving DecidableEq

/-- The `expand_count` attribute: number of children packed with
`expand=True`, across both packing groups. -/
def Box.expand_count (b : Box) : Nat :=
  ((b.children ++ b.children_end).filter BoxChild.expand).length

/-- `Box.pack(child, expand)`: validates `hasattr(child, 'draw') and
hasattr(child, 'get_size')`, raising `TypeError` otherwise, then appends a
`Packing` to `children`. -/
def Box.pack (b : Box) (child : Widget) (expand : Bool) : Except String Box :=
  if !(child.hasDraw && child.hasGetSize) then
    .error "TypeError: cannot be drawn"
  else
    .ok { b with children := b.children ++ [BoxChild.packing child expand] }

/-- `Box.pack_end(child, expand)`: same validation, appends to
`children_end`. -/
def Box.pack_end (b : Box) (child : Widget) (expand : Bool) : Except String Box :=
  if !(child.hasDraw && child.hasGetSize) then
    .error "TypeError: cannot be drawn"
  else
    .ok { b with children_end := b.children_end ++ [BoxChild.packing child expand] }

/-- `Box.pack_space(size, expand)`: appends whitespace, no validation. -/
def Box.pack_space (b : Box) (size : Int) (expand : Bool) : Box :=
  { b with children := b.children ++ [BoxChild.whitespace size expand] }

/-- `Box.pack_space_end(size, expand)`. -/
def Box.pack_space_end (b : Box) (size : Int) (expand : Bool) : Box :=
  { b with children_end := b.children_end ++ [BoxChild.whitespace size expand] }

/-- `Box._calc_size`: sums child lengths over `children + children_end`, takes
the max breadth, then adds `spacing * (total_children - 1)` (in Python int
arithmetic, so with zero children the spacing term is `-spacing`). -/
def Box._calc_size (b : Box) : Int × Int :=
  let all := b.children ++ b.children_end
  let length := (all.map (fun packing => packing.calc_size.1)).sum
  let breadth := (all.map (fun packing => packing.calc_size.2)).foldl max 0
  let total_children : Int := all.length
  (length + b.spacing * (total_children - 1), breadth)

/-- `Box._extra_space_iter(total_extra_space)` viewed as the infinite sequence
of its yields, indexed by `i`.  The generator yields `0` forever when
`total_extra_space <= 0`; otherwise it computes `divmod(total_extra_space,
expand_count)` (both operands positive here, so Python `divmod` agrees with
`Nat` division on `toNat`), yields `average_extra_space + 1` while
`leftover > 1` (indices `0 .. leftover-2`), then yields `average_extra_space +
leftover` once with `leftover` now at most `1` (index `max leftover 1 - 1`),
then yields `average_extra_space` forever.  The generator is only ever driven
with `expand_count > 0` (a `next()` call implies an expandable child; with
`expand_count = 0` Python would raise `ZeroDivisionError`). -/
def Box._extra_space_iter (expand_count : Nat) (total_extra_space : Int) (i : Nat) : Int :=
  if total_extra_space ≤ 0 then 0
  else
    let average_extra_space : Int := total_extra_space.toNat / expand_count
    let leftover : Nat := total_extra_space.toNat % expand_count
    if i + 1 < leftover then average_extra_space + 1
    else if i + 1 = max leftover 1 then average_extra_space + (min leftover 1 : Nat)
    else average_extra_space

/-- The first `for` loop of `Box._position_children`: walks the leading
children from position `0` forward, pulling from the shared extra-space
generator (whose next index is `k`) for each `expand` child; yields
`(packing, pos, child_length)` and advances by `child_length + spacing`.
Returns the yielded triples together with the generator index after the
loop (the generator is shared with the trailing loop). -/
def Box._position_leading (spacing : Int) (iter : Nat → Int) :
    List BoxChild → Int → Nat → List (BoxChild × Int × Int) × Nat
  | [], _, k => ([], k)
  | packing :: rest, pos, k =>
    if packing.expand then
      let child_length := packing.calc_size.1 + iter k
      let r := Box._position_leading spacing iter rest (pos + child_length + spacing) (k + 1)
      ((packing, pos, child_length) :: r.1, r.2)
    else
      let child_length := packing.calc_size.1
      let r := Box._position_leading spacing iter rest (pos + child_length + spacing) k
      ((packing, pos, child_length) :: r.1, r.2)

/-- The second `for` loop of `Box._position_children`: walks the trailing
children (in `children_end` insertion order) from `pos` backward: subtracts
the child length, yields, then subtracts the spacing. -/
def Box._position_end (spacing : Int) (iter : Nat → Int) :
    List BoxChild → Int → Nat → List (BoxChild × Int × Int)
  | [], _, _ => []
  | packing :: rest, pos, k =>
    if packing.expand then
      let child_length := packing.calc_size.1 + iter k
      (packing, pos - child_length, child_length) ::
        Box._position_end spacing iter rest (pos - child_length - spacing) (k + 1)
    else
      let child_length := packing.calc_size.1
      (packing, pos - child_length, child_length) ::
        Box._position_end spacing iter rest (pos - child_length - spacing) k

/-- `Box._position_children(total_length)`: the full yielded sequence of
`(packing, pos, child_length)` triples.  `my_length` comes from
`self.get_size()`, which on a freshly laid-out box is `_calc_size` (the
memoization itself is modelled separately for the caching claim). -/
def Box._position_children (b : Box) (total_length : Int) : List (BoxChild × Int × Int) :=
  let my_length := (b._calc_size).1
  let iter := Box._extra_space_iter b.expand_count (total_length - my_length)
  let (lead, k) := Box._position_leading b.spacing iter b.children 0 0
  lead ++ Box._position_end b.spacing iter b.children_end total_length k

/-- The scan loop of `Box._find_child_at` over the yielded triples and the
translated query coordinate `pos`: on the first triple whose span contains
`pos`, return `None` for whitespace and the child otherwise; `break` (returning
`None`) as soon as a triple starts past `pos`. -/
def Box._find_child_scan : List (BoxChild × Int × Int) → Int → Option (Widget × Int × Int)
  | [], _ => none
  | (packing, child_pos, child_length) :: rest, pos =>
    if child_pos ≤ pos ∧ pos < child_pos + child_length then
      match packing with
      | .whitespace _ _ => none
      | .packing child _ => some (child, child_pos, child_length)
    else if child_pos > pos then none
    else Box._find_child_scan rest pos

/-- `Box._find_child_at` restricted to the packing axis (the cross axis plays
no part in the hit test: the returned rect spans the full breadth): `pos` is
the translated query coordinate and `total_length` the translated allocated
extent.  Returns the child with its span start and length. -/
def Box._find_child_at (b : Box) (pos total_length : Int) : Option (Widget × Int × Int) :=
  Box._find_child_scan (b._position_children total_length) pos


/-- The bonus consumed from the extra-space generator by a yielded triple:
for an expandable child, assigned length minus minimum length; nothing for
the others. -/
def bonusOf (e : BoxChild × Int × Int) : Option Int :=
  if e.1.expand then some (e.2.2 - e.1.calc_size.1) else none

theorem position_leading_spec (s : Int) (iter : Nat → Int) :
    ∀ (cs : List BoxChild) (pos : Int) (k : Nat),
      (Box._position_leading s iter cs pos k).1.filterMap bonusOf
          = (List.range' k (cs.countP BoxChild.expand)).map iter
      ∧ (Box._position_leading s iter cs pos k).2 = k + cs.countP BoxChild.expand
      ∧ ∀ e ∈ (Box._position_leading s iter cs pos k).1,
          e.1.expand = false → e.2.2 = e.1.calc_size.1 := by
  intro cs
  induction cs with
  | nil => intro pos k; simp [Box._position_leading]
  | cons c rest ih =>
    intro pos k
    by_cases hc : c.expand = true
    · obtain ⟨h1, h2, h3⟩ := ih (pos + (c.calc_size.1 + iter k) + s) (k + 1)
      have hcnt : (c :: rest).countP BoxChild.expand
          = rest.countP BoxChild.expand + 1 := by simp [List.countP_cons, hc]
      refine ⟨?_, ?_, ?_⟩
      · simp only [Box._position_leading]
        rw [if_pos hc]
        have hb : bonusOf (c, pos, c.calc_size.1 + iter k) = some (iter k) := by
          simp [bonusOf, hc]
        simp only [List.filterMap_cons, hb, h1, hcnt]
        rw [List.range'_succ]
        simp
      · simp only [Box._position_leading]
        rw [if_pos hc]
        simp only [h2, hcnt]
        omega
      · intro e he
        simp only [Box._position_leading] at he
        rw [if_pos hc] at he
        simp only [List.mem_cons] at he
        rcases he with rfl | he
        · intro hfalse; simp only [hfalse] at hc; cases hc
        · exact h3 e he
    · obtain ⟨h1, h2, h3⟩ := ih (pos + c.calc_size.1 + s) k
      have hcnt : (c :: rest).countP BoxChild.expand
          = rest.countP BoxChild.expand := by simp [List.countP_cons, hc]
      refine ⟨?_, ?_, ?_⟩
      · simp only [Box._position_leading]
        rw [if_neg hc]
        have hb : bonusOf (c, pos, c.calc_size.1) = none := by
          simp [bonusOf, hc]
        simp only [List.filterMap_cons, hb, h1, hcnt]
      · simp only [Box._position_leading]
        rw [if_neg hc]
        simp only [h2, hcnt]
      · intro e he
        simp only [Box._position_leading] at he
        rw [if_neg hc] at he
        simp only [List.mem_cons] at he
        rcases he with rfl | he
        · intro _; rfl
        · exact h3 e he

theorem position_end_spec (s : Int) (iter : Nat → Int) :
    ∀ (cs : List BoxChild) (pos : Int) (k : Nat),
      (Box._position_end s iter cs pos k).filterMap bonusOf
          = (List.range' k (cs.countP BoxChild.expand)).map iter
      ∧ ∀ e ∈ Box._position_end s iter cs pos k,
          e.1.expand = false → e.2.2 = e.1.calc_size.1 := by
  intro cs
  induction cs with
  | nil => intro pos k; simp [Box._position_end]
  | cons c rest ih =>
    intro pos k
    by_cases hc : c.expand = true
    · obtain ⟨h1, h2⟩ := ih (pos - (c.calc_size.1 + iter k) - s) (k + 1)
      have hcnt : (c :: rest).countP BoxChild.expand
          = rest.countP BoxChild.expand + 1 := by simp [List.countP_cons, hc]
      refine ⟨?_, ?_⟩
      · simp only [Box._position_end]
        rw [if_pos hc]
        have hb : bonusOf (c, pos - (c.calc_size.1 + iter k), c.calc_size.1 + iter k)
            = some (iter k) := by simp [bonusOf, hc]
        simp only [List.filterMap_cons, hb, h1, hcnt]
        rw [List.range'_succ]
        simp
      · intro e he
        simp only [Box._position_end] at he
        rw [if_pos hc] at he
        simp only [List.mem_cons] at he
        rcases he with rfl | he
        · intro hfalse; simp only [hfalse] at hc; cases hc
        · exact h2 e he
    · obtain ⟨h1, h2⟩ := ih (pos - c.calc_size.1 - s) k
      have hcnt : (c :: rest).countP BoxChild.expand
          = rest.countP BoxChild.expand := by simp [List.countP_cons, hc]
      refine ⟨?_, ?_⟩
      · simp only [Box._position_end]
        rw [if_neg hc]
        have hb : bonusOf (c, pos - c.calc_size.1, c.calc_size.1) = none := by
          simp [bonusOf, hc]
        simp only [List.filterMap_cons, hb, h1, hcnt]
      · intro e he
        simp only [Box._position_end] at he
        rw [if_neg hc] at he
        simp only [List.mem_cons] at he
        rcases he with rfl | he
        · intro _; rfl
        · exact h2 e he

theorem position_children_spec (b : Box) (total_length : Int) :
    (b._position_children total_length).filterMap bonusOf
        = (List.range' 0 b.expand_count).map
            (Box._extra_space_iter b.expand_count (total_length - (b._calc_size).1))
      ∧ ∀ e ∈ b._position_children total_length,
          e.1.expand = false → e.2.2 = e.1.calc_size.1 := by
  have hcount : b.expand_count
      = b.children.countP BoxChild.expand + b.children_end.countP BoxChild.expand := by
    simp [Box.expand_count, List.countP_eq_length_filter, List.filter_append]
  have hsplit : List.range' 0 b.expand_count
      = List.range' 0 (b.children.countP BoxChild.expand)
        ++ List.range' (0 + b.children.countP BoxChild.expand)
            (b.children_end.countP BoxChild.expand) := by
    rw [List.range'_append_1, hcount, Nat.add_comm]
  obtain ⟨l1, l2, l3⟩ := position_leading_spec b.spacing
    (Box._extra_space_iter b.expand_count (total_length - (b._calc_size).1))
    b.children 0 0
  obtain ⟨e1, e2⟩ := position_end_spec b.spacing
    (Box._extra_space_iter b.expand_count (total_length - (b._calc_size).1))
    b.children_end total_length
    ((Box._position_leading b.spacing
      (Box._extra_space_iter b.expand_count (total_length - (b._calc_size).1))
      b.children 0 0).2)
  constructor
  · rw [l2] at e1
    simp only [Box._position_children, List.filterMap_append, l1, l2, e1]
    rw [hsplit, List.map_append]
  · intro e he
    simp only [Box._position_children, List.mem_append] at he
    rcases he with he | he
    · exact l3 e he
    · exact e2 e he

theorem extra_space_iter_pos (n : Nat) (x : Int) (hx : 0 < x) (j : Nat) :
    Box._extra_space_iter n x j
      = if j < x.toNat % n then (x.toNat / n : Int) + 1 else (x.toNat / n : Int) := by
  simp only [Box._extra_space_iter]
  rw [if_neg (by omega)]
  split_ifs <;> omega

theorem extra_space_iter_nonpos (n : Nat) (x : Int) (hx : x ≤ 0) (j : Nat) :
    Box._extra_space_iter n x j = 0 := by
  simp only [Box._extra_space_iter]
  rw [if_pos hx]

theorem sum_ite_range (r : Nat) (a : Int) :
    ∀ n : Nat, ((List.range n).map (fun j => if j < r then a + 1 else a)).sum
      = (n : Int) * a + ((min n r : Nat) : Int) := by
  intro n
  induction n with
  | zero => simp
  | succ m ih =>
    rw [List.range_succ, List.map_append, List.sum_append]
    simp only [List.map_cons, List.map_nil, List.sum_cons, List.sum_nil, ih]
    by_cases hm : m < r
    · rw [if_pos hm]
      rw [show min (m + 1) r = min m r + 1 by omega]
      push_cast
      ring
    · rw [if_neg hm]
      rw [show min (m + 1) r = min m r by omega]
      push_cast
      ring

/-- C1: in a `Box`, the extra-space distribution gives every non-expandable
child exactly its minimum extent; the expandable children's bonuses sum to
`max(0, allocated - minimum)` and pairwise differ by at most 1; when the
extra space is positive the bonuses are `base + 1` for the first `remainder`
expandable children in encounter order and `base` for the rest, where
`(base, remainder) = divmod(extra, expand_count)`; when the extra space is
zero or negative every expandable child receives a zero bonus. -/
theorem C1_box_extra_space (b : Box) (total_length : Int)
    (hexp : 0 < b.expand_count) :
    (∀ e ∈ b._position_children total_length,
        e.1.expand = false → e.2.2 = e.1.calc_size.1) ∧
    ((b._position_children total_length).filterMap bonusOf).sum
        = max 0 (total_length - (b._calc_size).1) ∧
    (∀ x ∈ (b._position_children total_length).filterMap bonusOf,
      ∀ y ∈ (b._position_children total_length).filterMap bonusOf,
        (x - y).natAbs ≤ 1) ∧
    (0 < total_length - (b._calc_size).1 →
      (b._position_children total_length).filterMap bonusOf
        = (List.range b.expand_count).map (fun j =>
            if j < (total_length - (b._calc_size).1).toNat % b.expand_count
            then ((total_length - (b._calc_size).1).toNat / b.expand_count : Int) + 1
            else ((total_length - (b._calc_size).1).toNat / b.expand_count : Int))) ∧
    (total_length - (b._calc_size).1 ≤ 0 →
      (b._position_children total_length).filterMap bonusOf
        = List.replicate b.expand_count 0) := by
  obtain ⟨hrep, hmin⟩ := position_children_spec b total_length
  have hposcase : 0 < total_length - (b._calc_size).1 →
      (b._position_children total_length).filterMap bonusOf
        = (List.range b.expand_count).map (fun j =>
            if j < (total_length - (b._calc_size).1).toNat % b.expand_count
            then ((total_length - (b._calc_size).1).toNat / b.expand_count : Int) + 1
            else ((total_length - (b._calc_size).1).toNat / b.expand_count : Int)) := by
    intro hx
    rw [hrep, ← List.range_eq_range']
    exact List.map_congr_left (fun j _ => extra_space_iter_pos _ _ hx j)
  have hnegcase : total_length - (b._calc_size).1 ≤ 0 →
      (b._position_children total_length).filterMap bonusOf
        = List.replicate b.expand_count 0 := by
    intro hx
    rw [hrep,
      List.map_congr_left (fun j _ => extra_space_iter_nonpos b.expand_count _ hx j),
      List.map_const', List.length_range']
  refine ⟨hmin, ?_, ?_, hposcase, hnegcase⟩
  · by_cases hx : total_length - (b._calc_size).1 ≤ 0
    · rw [hnegcase hx]
      simp
      omega
    · push_neg at hx
      rw [hposcase (by omega), sum_ite_range]
      have hmod := Nat.div_add_mod (total_length - (b._calc_size).1).toNat b.expand_count
      have hlt : (total_length - (b._calc_size).1).toNat % b.expand_count
          < b.expand_count := Nat.mod_lt _ hexp
      have htn : ((total_length - (b._calc_size).1).toNat : Int)
          = total_length - (b._calc_size).1 := Int.toNat_of_nonneg (by omega)
      rw [show min b.expand_count
            ((total_length - (b._calc_size).1).toNat % b.expand_count)
          = (total_length - (b._calc_size).1).toNat % b.expand_count by omega]
      have key := Int.ediv_add_emod
        ((total_length - (b._calc_size).1).toNat : Int) (b.expand_count : Int)
      have hmc := Int.natCast_mod (total_length - (b._calc_size).1).toNat b.expand_count
      have hdc := Int.natCast_div (total_length - (b._calc_size).1).toNat b.expand_count
      omega
  · have hvals : ∀ z ∈ (b._position_children total_length).filterMap bonusOf,
        z = ((total_length - (b._calc_size).1).toNat / b.expand_count : Int)
        ∨ z = ((total_length - (b._calc_size).1).toNat / b.expand_count : Int) + 1
        ∨ z = 0 := by
      intro z hz
      by_cases hx : total_length - (b._calc_size).1 ≤ 0
      · rw [hnegcase hx] at hz
        simp at hz
        omega
      · rw [hposcase (by omega)] at hz
        obtain ⟨j, _, hj⟩ := List.mem_map.mp hz
        by_cases hjr : j < (total_length - (b._calc_size).1).toNat % b.expand_count
        · rw [if_pos hjr] at hj; omega
        · rw [if_neg hjr] at hj; omega
    intro x hx y hy
    -- within one call the bonuses all come from the same branch of the
    -- iterator, so the zero case and the divmod case cannot mix
    by_cases hne : total_length - (b._calc_size).1 ≤ 0
    · rw [hnegcase hne] at hx hy
      rw [List.eq_of_mem_replicate hx, List.eq_of_mem_replicate hy]
      simp
    · have hx0 : x = ((total_length - (b._calc_size).1).toNat / b.expand_count : Int)
          ∨ x = ((total_length - (b._calc_size).1).toNat / b.expand_count : Int) + 1 := by
        rw [hposcase (by omega)] at hx
        obtain ⟨j, _, hj⟩ := List.mem_map.mp hx
        by_cases hjr : j < (total_length - (b._calc_size).1).toNat % b.expand_count
        · rw [if_pos hjr] at hj; omega
        · rw [if_neg hjr] at hj; omega
      have hy0 : y = ((total_length - (b._calc_size).1).toNat / b.expand_count : Int)
          ∨ y = ((total_length - (b._calc_size).1).toNat / b.expand_count : Int) + 1 := by
        rw [hposcase (by omega)] at hy
        obtain ⟨j, _, hj⟩ := List.mem_map.mp hy
        by_cases hjr : j < (total_length - (b._calc_size).1).toNat % b.expand_count
        · rw [if_pos hjr] at hj; omega
        · rw [if_neg hjr] at hj; omega
      rcases hx0 with rfl | rfl <;> rcases hy0 with h | h <;> omega

/-- Concrete widgets and boxes used by the witnesses below. -/
def wA : Widget := ⟨1, true, true, (10, 5)⟩

def wB : Widget := ⟨2, true, true, (7, 3)⟩

def wC : Widget := ⟨3, true, true, (4, 9)⟩

/-- A box with spacing 2, two leading children (one expandable), expandable
whitespace, and an expandable trailing child. -/
def boxW : Box :=
  { spacing := 2,
    children := [BoxChild.packing wA true, BoxChild.packing wB false,
                 BoxChild.whitespace 5 true],
    children_end := [BoxChild.packing wC true] }

theorem C1_box_extra_space_witness :
    0 < boxW.expand_count ∧
    ((boxW._position_children 50).filterMap bonusOf).sum
      = max 0 (50 - (boxW._calc_size).1) :=
  ⟨by decide, (C1_box_extra_space boxW 50 (by decide)).2.1⟩

/-- A box with two trailing children and nothing else. -/
def boxT : Box :=
  { spacing := 0,
    children := [],
    children_end := [BoxChild.packing wA false, BoxChild.packing wB false] }

/-- C2 counterexample: in `boxT` allocated 100 units, the second trailing
child `wB` is yielded by the position generator with span `[83, 90)`, the
first (and only) entry whose span contains the query coordinate 85; yet
`_find_child_at` returns no hit, because the scan breaks at the first
trailing child, whose start 90 lies past the query. -/
theorem C2_counterexample :
    Box._find_child_at boxT 85 100 = none ∧
    ∃ e ∈ boxT._position_children 100,
      e.1 = BoxChild.packing wB false ∧ e.2.1 ≤ 85 ∧ 85 < e.2.1 + e.2.2 := by
  decide

theorem find_child_scan_sorted (pos : Int) :
    ∀ entries : List (BoxChild × Int × Int),
      entries.Pairwise (fun e1 e2 => e1.2.1 ≤ e2.2.1) →
      Box._find_child_scan entries pos
        = match entries.find?
            (fun e => decide (e.2.1 ≤ pos ∧ pos < e.2.1 + e.2.2)) with
          | none => none
          | some e => match e.1 with
            | BoxChild.whitespace _ _ => none
            | BoxChild.packing c _ => some (c, e.2.1, e.2.2) := by
  intro entries
  induction entries with
  | nil => intro _; simp [Box._find_child_scan]
  | cons e rest ih =>
    obtain ⟨c, cp, cl⟩ := e
    intro hp
    obtain ⟨hhead, htail⟩ := List.pairwise_cons.mp hp
    by_cases hcont : cp ≤ pos ∧ pos < cp + cl
    · rw [List.find?_cons_of_pos _ (by simpa using hcont)]
      simp only [Box._find_child_scan]
      rw [if_pos hcont]
    · rw [List.find?_cons_of_neg _ (by simpa using hcont)]
      by_cases hgt : cp > pos
      · have hnone : rest.find?
            (fun e => decide (e.2.1 ≤ pos ∧ pos < e.2.1 + e.2.2)) = none := by
          rw [List.find?_eq_none]
          intro f hf
          have hle : cp ≤ f.2.1 := by simpa using hhead f hf
          simp only [decide_eq_true_eq]
          omega
        rw [hnone]
        simp only [Box._find_child_scan]
        rw [if_neg hcont, if_pos hgt]
      · rw [← ih htail]
        simp only [Box._find_child_scan]
        rw [if_neg hcont, if_neg hgt]

/-- C2 (amended): `_find_child_at` returns the first entry in generator order
whose span contains the query coordinate (no hit when that entry is
whitespace) whenever the generated entries appear in non-decreasing order of
start position, which holds in particular with at most one trailing child;
the scan aborts at the first entry whose start exceeds the query, so with two
or more trailing children an entry yielded after an entry positioned past
the query is unreachable. -/
theorem C2_box_find_child_first_containing (b : Box) (pos total_length : Int)
    (hsorted : (b._position_children total_length).Pairwise
      (fun e1 e2 => e1.2.1 ≤ e2.2.1)) :
    Box._find_child_at b pos total_length
      = match (b._position_children total_length).find?
          (fun e => decide (e.2.1 ≤ pos ∧ pos < e.2.1 + e.2.2)) with
        | none => none
        | some e => match e.1 with
          | BoxChild.whitespace _ _ => none
          | BoxChild.packing c _ => some (c, e.2.1, e.2.2) :=
  find_child_scan_sorted pos (b._position_children total_length) hsorted

/-- The spec scenario: two leading children of lengths 10 and 20, a trailing
child of length 15, spacing 5, allocated 100. -/
def boxS : Box :=
  { spacing := 5,
    children := [BoxChild.packing ⟨6, true, true, (10, 4)⟩ false,
                 BoxChild.packing ⟨7, true, true, (20, 4)⟩ false],
    children_end := [BoxChild.packing ⟨8, true, true, (15, 4)⟩ false] }

theorem C2_box_find_child_first_containing_witness :
    (boxS._position_children 100).Pairwise (fun e1 e2 => e1.2.1 ≤ e2.2.1) ∧
    Box._find_child_at boxS 25 100
      = match (boxS._position_children 100).find?
          (fun e => decide (e.2.1 ≤ 25 ∧ 25 < e.2.1 + e.2.2)) with
        | none => none
        | some e => match e.1 with
          | BoxChild.whitespace _ _ => none
          | BoxChild.packing c _ => some (c, e.2.1, e.2.2) :=
  ⟨by decide, C2_box_find_child_first_containing boxS 25 100 (by decide)⟩

/-- A populated `Table` cell: `Packing(child, expand)` (expand is accepted by
`Table.pack` but unused by layout). -/
structure TablePacking where
  child : Widget
  expand : Bool
deriving DecidableEq

/-- `Table.__init__` state: `table_multiarray` is the `row_length` by
`col_length` grid of optional `Packing` cells (`None` = never packed);
`Table._translate` is the identity. -/
structure Table where
  row_length : Nat
  col_length : Nat
  row_spacing : Int
  col_spacing : Int
  table_multiarray : List (List (Option TablePacking))
deriving DecidableEq

/-- `Table(row_length, col_length, row_spacing, col_spacing)`: builds the
all-`None` grid (`_generate_table_multiarray`). -/
def Table.make (row_length col_length : Nat) (row_spacing col_spacing : Int) : Table :=
  { row_length := row_length, col_length := col_length,
    row_spacing := row_spacing, col_spacing := col_spacing,
    table_multiarray :=
      List.replicate row_length (List.replicate col_length none) }

/-- `Table.pack(child, row, column, expand)`: stores a `Packing` at the grid
position, letting an `IndexError` through when the position is out of range.
No capability validation is performed on `child`. -/
def Table.pack (t : Table) (child : Widget) (row column : Nat) (expand : Bool) :
    Except String Table :=
  match t.table_multiarray.get? row with
  | none => .error "IndexError"
  | some r =>
    if column < r.length then
      .ok { t with table_multiarray :=
        t.table_multiarray.set row (r.set column (some ⟨child, expand⟩)) }
    else .error "IndexError"

/-- The `col_sizes` dict of `Table._get_grid_sizes` at key `c`: the maximum
width of the populated cells in column `c`, defaulting to 0. -/
def Table.col_size (t : Table) (c : Nat) : Int :=
  t.table_multiarray.foldl (fun acc row =>
    match row.get? c with
    | some (some packing) => max acc packing.child.size.1
    | _ => acc) 0

/-- The `row_sizes` dict of `Table._get_grid_sizes` at a given row: the
maximum height of the populated cells of that row, defaulting to 0. -/
def Table.row_size_of (row : List (Option TablePacking)) : Int :=
  row.foldl (fun acc cell =>
    match cell with
    | some packing => max acc packing.child.size.2
    | none => acc) 0

/-- The inner `for` loop of `Table._find_child_at` over one row's cells,
carrying `col_count` and `col_distance`.  The loop body evaluates
`packing.calc_size(self._translate)` before testing `if packing.child:`, so
reaching a `None` cell raises `AttributeError` (`None` has no `calc_size`). -/
def Table._find_in_row (t : Table) (x y row_distance : Int) :
    List (Option TablePacking) → Nat → Int →
    Except String (Option (Widget × Int × Int × Int × Int))
  | [], _, _ => .ok none
  | none :: _, _, _ => .error "AttributeError"
  | some packing :: rest, col_count, col_distance =>
    let child_width := packing.child.size.1
    let child_height := packing.child.size.2
    if col_distance ≤ x ∧ x < col_distance + child_width ∧
       row_distance ≤ y ∧ y < row_distance + child_height then
      .ok (some (packing.child, col_distance, row_distance,
                 child_width, child_height))
    else
      Table._find_in_row t x y row_distance rest (col_count + 1)
        (col_distance + t.col_size col_count + t.col_spacing)

/-- The outer `for` loop of `Table._find_child_at` over the rows, carrying
`row_distance`; falls through to `None` when no populated cell contains the
point. -/
def Table._find_in_rows (t : Table) (x y : Int) :
    List (List (Option TablePacking)) → Int →
    Except String (Option (Widget × Int × Int × Int × Int))
  | [], _ => .ok none
  | row :: rest, row_distance =>
    match Table._find_in_row t x y row_distance row 0 0 with
    | .error e => .error e
    | .ok (some hit) => .ok (some hit)
    | .ok none =>
      Table._find_in_rows t x y rest
        (row_distance + Table.row_size_of row + t.row_spacing)

/-- `Table._find_child_at(x, y, width, height)` (width and height are unused
by the source body). -/
def Table._find_child_at (t : Table) (x y : Int) :
    Except String (Option (Widget × Int × Int × Int × Int)) :=
  Table._find_in_rows t x y t.table_multiarray 0

/-- A 1-row, 2-column table whose only populated cell is `(0,0)`. -/
def tableE : Table :=
  { row_length := 1, col_length := 2, row_spacing := 0, col_spacing := 0,
    table_multiarray := [[some ⟨wA, false⟩, none]] }

/-- C3: hit-testing a table with an empty (never packed) grid cell raises
`AttributeError` instead of skipping the cell: `_find_child_at` evaluates
`packing.calc_size(...)` before testing `if packing.child:`, and the empty
cell is `None`.  In `tableE` the populated cell `(0,0)` spans `[0,10) ×
[0,5)`; the query `(15, 5)` misses it, the scan reaches the empty cell
`(0,1)` and crashes, where the claim requires the empty cell to be skipped
without error (yielding no hit here). -/
theorem C3_table_empty_cell_crash :
    Table._find_child_at tableE 15 5 = .error "AttributeError" ∧
    tableE.table_multiarray = [[some ⟨wA, false⟩, none]] :=
  ⟨rfl, rfl⟩

mutual
/-- The recursive packer tree used for hit-testing through `Stack`: `Hotspot`
(which overrides `find_hotspot` and implements no `_find_child_at`),
`DrawingArea` (a leaf whose `_find_child_at` is `None`), `Background` (margin
wrapper returning its child), and `Stack`. -/
inductive SPacker where
  | hotspot (name : String) (child : PChild)
  | drawing_area (width height : Int)
  | background (child : PChild) (min_width min_height : Int) (margin : Margin)
  | stack (children : List SPacker)
/-- A resolved child is either a leaf widget (no `find_hotspot`, so the
`AttributeError` handler in `Packer.find_hotspot` turns it into no hit) or
another packer. -/
inductive PChild where
  | widgetChild (w : Widget)
  | packerChild (p : SPacker)
end

/-- `Stack.pack(packer)`: appends on top (no validation of any kind). -/
def Stack.pack (children : List SPacker) (packer : SPacker) : List SPacker :=
  children ++ [packer]

/-- `Stack.pack_below(packer)`: inserts at the bottom. -/
def Stack.pack_below (children : List SPacker) (packer : SPacker) : List SPacker :=
  packer :: children

theorem mem_of_getLast? {α : Type} {l : List α} {a : α}
    (h : l.getLast? = some a) : a ∈ l := by
  induction l with
  | nil => simp at h
  | cons x xs ih =>
    cases xs with
    | nil => simp at h; simp [h]
    | cons y ys =>
      rw [List.getLast?_cons_cons] at h
      exact List.mem_cons_of_mem x (ih h)

/-- `_find_child_at(x, y, width, height)` across the modelled packers.
`Hotspot` inherits `Packer._find_child_at`, which raises
`NotImplementedError`; `DrawingArea._find_child_at` returns `None`;
`Background._find_child_at` tests the margin and returns
`(child,) + margin.inner_rect(0, 0, width, height)`;
`Stack._find_child_at` takes `children[-1]` (returning `None` on
`IndexError`) and delegates to it. -/
def SPacker.find_child_at : SPacker → Int → Int → Int → Int →
    Except String (Option (PChild × Int × Int × Int × Int))
  | .hotspot _ _, _, _, _, _ => .error "NotImplementedError"
  | .drawing_area _ _, _, _, _, _ => .ok none
  | .background child _ _ m, x, y, w, h =>
    if !(m.point_in_margin x y w h) then .ok none
    else .ok (some (child, m.inner_rect 0 0 w h))
  | .stack cs, x, y, w, h =>
    match hlast : cs.getLast? with
    | none => .ok none
    | some top => top.find_child_at x y w h
termination_by p _ _ _ _ => sizeOf p
decreasing_by
  have hm := mem_of_getLast? hlast
  have h2 := List.sizeOf_lt_of_mem hm
  simp only [SPacker.stack.sizeOf_spec]
  omega

theorem find_child_at_hotspot (name : String) (c : PChild) (x y w h : Int) :
    (SPacker.hotspot name c).find_child_at x y w h
      = .error "NotImplementedError" := by
  rw [SPacker.find_child_at.eq_def]

theorem find_child_at_drawing_area (wd ht x y w h : Int) :
    (SPacker.drawing_area wd ht).find_child_at x y w h = .ok none := by
  rw [SPacker.find_child_at.eq_def]

theorem find_child_at_background (c : PChild) (mw mh : Int) (m : Margin)
    (x y w h : Int) :
    (SPacker.background c mw mh m).find_child_at x y w h
      = if !(m.point_in_margin x y w h) then .ok none
        else .ok (some (c, m.inner_rect 0 0 w h)) := by
  rw [SPacker.find_child_at.eq_def]

theorem find_child_at_stack (cs : List SPacker) (x y w h : Int) :
    (SPacker.stack cs).find_child_at x y w h
      = match cs.getLast? with
        | none => .ok none
        | some top => top.find_child_at x y w h := by
  rw [SPacker.find_child_at.eq_def]
  split
  · rename_i heq; exact SPacker.noConfusion heq
  · rename_i heq; exact SPacker.noConfusion heq
  · rename_i heq; exact SPacker.noConfusion heq
  · rename_i heq
    injection heq with hcs
    subst hcs
    split <;> rename_i hl <;> simp [hl]

theorem find_child_at_size_aux :
    ∀ (n : Nat) (p : SPacker), sizeOf p ≤ n →
    ∀ (x y w h : Int) (c : PChild) (cx cy cw ch : Int),
      p.find_child_at x y w h = .ok (some (c, cx, cy, cw, ch)) →
      sizeOf c < sizeOf p := by
  intro n
  induction n with
  | zero =>
    intro p hp
    cases p <;> simp at hp <;> omega
  | succ m ih =>
    intro p hp x y w h c cx cy cw ch hfc
    cases p with
    | hotspot name child => rw [find_child_at_hotspot] at hfc; cases hfc
    | drawing_area wd ht => rw [find_child_at_drawing_area] at hfc; cases hfc
    | background child mw mh mg =>
      rw [find_child_at_background] at hfc
      split at hfc
      · cases hfc
      · simp only [Except.ok.injEq, Option.some.injEq, Prod.mk.injEq] at hfc
        obtain ⟨rfl, -⟩ := hfc
        simp only [SPacker.background.sizeOf_spec]
        omega
    | stack cs =>
      rw [find_child_at_stack] at hfc
      split at hfc
      · cases hfc
      · rename_i top hlast
        have hm := mem_of_getLast? hlast
        have hs := List.sizeOf_lt_of_mem hm
        have := ih top (by simp only [SPacker.stack.sizeOf_spec] at hp ⊢; omega)
          x y w h c cx cy cw ch hfc
        simp only [SPacker.stack.sizeOf_spec]
        omega

theorem find_child_at_size (p : SPacker) (x y w h : Int) (c : PChild)
    (cx cy cw ch : Int)
    (hfc : p.find_child_at x y w h = .ok (some (c, cx, cy, cw, ch))) :
    sizeOf c < sizeOf p :=
  find_child_at_size_aux (sizeOf p) p le_rfl x y w h c cx cy cw ch hfc

/-- Dynamic dispatch of `find_hotspot`: only the `Hotspot` class overrides
it, returning its stored name. -/
def SPacker.hotspot_name : SPacker → Option String
  | .hotspot name _ => some name
  | _ => none

/-- `Packer.find_hotspot(x, y, width, height)` with the `Hotspot` override:
a `Hotspot` returns `(name, x, y, width, height)` directly; every other
packer resolves `_find_child_at` and recurses into the resolved child with
translated coordinates, the `except AttributeError` arm turning a leaf
widget child into no hit.  Exceptions raised by `_find_child_at`
(`NotImplementedError`) propagate. -/
def SPacker.find_hotspot (p : SPacker) (x y w h : Int) :
    Except String (Option (String × Int × Int × Int × Int)) :=
  match p.hotspot_name with
  | some name => .ok (some (name, x, y, w, h))
  | none =>
    match hfc : p.find_child_at x y w h with
    | .error e => .error e
    | .ok none => .ok none
    | .ok (some (.widgetChild _, _, _, _, _)) => .ok none
    | .ok (some (.packerChild q, cx, cy, cw, ch)) =>
      q.find_hotspot (x - cx) (y - cy) cw ch
termination_by sizeOf p
decreasing_by
  have := find_child_at_size p x y w h _ cx cy cw ch hfc
  simp only [PChild.packerChild.sizeOf_spec] at this
  omega

theorem find_hotspot_hotspot (name : String) (c : PChild) (x y w h : Int) :
    (SPacker.hotspot name c).find_hotspot x y w h
      = .ok (some (name, x, y, w, h)) := by
  rw [SPacker.find_hotspot.eq_def]
  simp [SPacker.hotspot_name]

theorem find_hotspot_of_name_none (p : SPacker) (x y w h : Int)
    (hname : p.hotspot_name = none) :
    p.find_hotspot x y w h
      = match p.find_child_at x y w h with
        | .error e => .error e
        | .ok none => .ok none
        | .ok (some (.widgetChild _, _, _, _, _)) => .ok none
        | .ok (some (.packerChild q, cx, cy, cw, ch)) =>
          q.find_hotspot (x - cx) (y - cy) cw ch := by
  conv_lhs => rw [SPacker.find_hotspot.eq_def]
  rw [hname]
  split
  · rename_i heq; exact Option.noConfusion heq
  · split <;> rename_i hl <;> simp [hl]

/-- A stack whose (only, hence topmost) entry is a bare `Hotspot`. -/
def stackHot : SPacker := .stack [.hotspot "a" (.widgetChild wA)]

/-- C4 counterexample: on a stack whose topmost entry is a `Hotspot`
wrapper, `find_hotspot` raises `NotImplementedError` (the stack delegates to
`top._find_child_at`, which `Hotspot` does not implement), while consulting
the topmost packer alone returns its hotspot name; so the stack result does
not equal the topmost result as the claim states. -/
theorem C4_counterexample :
    SPacker.find_hotspot stackHot 1 1 10 10 = .error "NotImplementedError" ∧
    SPacker.find_hotspot (.hotspot "a" (.widgetChild wA)) 1 1 10 10
      = .ok (some ("a", 1, 1, 10, 10)) := by
  constructor
  · rw [show stackHot = SPacker.stack [.hotspot "a" (.widgetChild wA)] from rfl,
        find_hotspot_of_name_none (SPacker.stack [.hotspot "a" (.widgetChild wA)])
          1 1 10 10 (by rfl),
        find_child_at_stack]
    simp [find_child_at_hotspot]
  · exact find_hotspot_hotspot "a" (.widgetChild wA) 1 1 10 10

/-- C4 (amended): on a non-empty stack whose topmost (last-packed) entry
implements child resolution (any packer except a bare `Hotspot` wrapper,
whose missing `_find_child_at` makes the stack query raise
`NotImplementedError`), `find_hotspot` equals the result of consulting the
topmost packer alone — lower entries are never reachable; on an empty stack
the result is no hit. -/
theorem C4_stack_topmost_only (l : List SPacker) (top : SPacker)
    (x y w h : Int) (hnot : top.hotspot_name = none) :
    (SPacker.stack (l ++ [top])).find_hotspot x y w h
        = top.find_hotspot x y w h ∧
    (SPacker.stack []).find_hotspot x y w h = .ok none := by
  constructor
  · have hfc : (SPacker.stack (l ++ [top])).find_child_at x y w h
        = top.find_child_at x y w h := by
      rw [find_child_at_stack, List.getLast?_concat]
    rw [find_hotspot_of_name_none (SPacker.stack (l ++ [top])) x y w h (by rfl),
        hfc, find_hotspot_of_name_none top x y w h hnot]
  · rw [find_hotspot_of_name_none (SPacker.stack []) x y w h (by rfl),
        find_child_at_stack]
    rfl

theorem C4_stack_topmost_only_witness :
    (SPacker.background (.widgetChild wA) 0 0 (Margin.make none)).hotspot_name
        = none ∧
    ((SPacker.stack ([SPacker.drawing_area 20 20, SPacker.drawing_area 20 20]
          ++ [SPacker.background (.widgetChild wA) 0 0 (Margin.make none)])).find_hotspot
            3 4 20 20
        = (SPacker.background (.widgetChild wA) 0 0 (Margin.make none)).find_hotspot
            3 4 20 20 ∧
     (SPacker.stack []).find_hotspot 3 4 20 20 = .ok none) :=
  ⟨rfl, C4_stack_topmost_only
    [SPacker.drawing_area 20 20, SPacker.drawing_area 20 20]
    (SPacker.background (.widgetChild wA) 0 0 (Margin.make none)) 3 4 20 20 rfl⟩

/-- `LayoutRect(x, y, width, height)`: a mutable rect value. -/
structure LayoutRect where
  x : Int
  y : Int
  width : Int
  height : Int
deriving DecidableEq

/-- `LayoutRect.is_point_inside(x, y)`. -/
def LayoutRect.is_point_inside (r : LayoutRect) (px py : Int) : Bool :=
  decide ((r.x ≤ px ∧ px < r.x + r.width) ∧ (r.y ≤ py ∧ py < r.y + r.height))

/-- One element of a `Layout`: the `(rect, drawing_function, hotspot)` triple
appended to `_rects` by `add_rect`.  The drawing function and the hotspot tag
are opaque values of the type parameters `δ` and `τ`. -/
structure LayoutElement (δ τ : Type) where
  rect : LayoutRect
  drawing_function : Option δ
  hotspot : Option τ
deriving DecidableEq

/-- `Layout.__init__` state: the `_rects` list plus `last_rect`. -/
structure Layout (δ τ : Type) where
  _rects : List (LayoutElement δ τ)
  last_rect : Option LayoutRect
deriving DecidableEq

/-- `Layout.add_rect(layout_rect, drawing_function, hotspot)`. -/
def Layout.add_rect {δ τ : Type} (L : Layout δ τ) (layout_rect : LayoutRect)
    (drawing_function : Option δ) (hotspot : Option τ) : Layout δ τ :=
  { _rects := L._rects ++ [⟨layout_rect, drawing_function, hotspot⟩],
    last_rect := some layout_rect }

/-- `Layout.add(x, y, width, height, drawing_function, hotspot)`. -/
def Layout.add {δ τ : Type} (L : Layout δ τ) (x y width height : Int)
    (drawing_function : Option δ) (hotspot : Option τ) : Layout δ τ :=
  L.add_rect ⟨x, y, width, height⟩ drawing_function hotspot

/-- `Layout.rect_count()`. -/
def Layout.rect_count {δ τ : Type} (L : Layout δ τ) : Nat :=
  L._rects.length

/-- `Layout.translate(delta_x, delta_y)`: `rect.x += delta_x; rect.y +=
delta_y` for each stored element. -/
def Layout.translate {δ τ : Type} (L : Layout δ τ) (delta_x delta_y : Int) :
    Layout δ τ :=
  { L with _rects := L._rects.map (fun e =>
      { e with rect := { e.rect with
          x := e.rect.x + delta_x, y := e.rect.y + delta_y } }) }

/-- `Layout.max_width()`: `max(rect.width for ...)`; Python `max` raises
`ValueError` on an empty sequence. -/
def Layout.max_width {δ τ : Type} (L : Layout δ τ) : Except String Int :=
  match L._rects.map (fun e => e.rect.width) with
  | [] => .error "ValueError: max arg is an empty sequence"
  | w :: ws => .ok (ws.foldl max w)

/-- `Layout.max_height()`. -/
def Layout.max_height {δ τ : Type} (L : Layout δ τ) : Except String Int :=
  match L._rects.map (fun e => e.rect.height) with
  | [] => .error "ValueError: max arg is an empty sequence"
  | h :: hs => .ok (hs.foldl max h)

/-- The mutation loop of `center_x` once both bounds are known: `rect.x =
left + (area_width - rect.width) // 2` (Python floor division; `Int`
division in Lean rounds toward negative infinity for the positive divisor 2,
matching it). -/
def Layout.center_x_apply {δ τ : Type} (L : Layout δ τ) (left right : Int) :
    Layout δ τ :=
  { L with _rects := L._rects.map (fun e =>
      { e with rect := { e.rect with
          x := left + (right - left - e.rect.width) / 2 } }) }

/-- `Layout.center_x(left, right)`: raises `ValueError` when both bounds are
`None`; derives the missing bound from `max_width()` (which itself raises on
an empty layout); then centers every rect.  The raise happens before any
rect is mutated. -/
def Layout.center_x {δ τ : Type} (L : Layout δ τ) (left right : Option Int) :
    Except String (Layout δ τ) :=
  match left, right with
  | none, none => .error "ValueError: both left and right are None"
  | none, some r =>
    match L.max_width with
    | .error e => .error e
    | .ok mw => .ok (L.center_x_apply (r - mw) r)
  | some l, none =>
    match L.max_width with
    | .error e => .error e
    | .ok mw => .ok (L.center_x_apply l (l + mw))
  | some l, some r => .ok (L.center_x_apply l r)

/-- The mutation loop of `center_y` once both bounds are known. -/
def Layout.center_y_apply {δ τ : Type} (L : Layout δ τ) (top bottom : Int) :
    Layout δ τ :=
  { L with _rects := L._rects.map (fun e =>
      { e with rect := { e.rect with
          y := top + (bottom - top - e.rect.height) / 2 } }) }

/-- `Layout.center_y(top, bottom)`. -/
def Layout.center_y {δ τ : Type} (L : Layout δ τ) (top bottom : Option Int) :
    Except String (Layout δ τ) :=
  match top, bottom with
  | none, none => .error "ValueError: both top and bottom are None"
  | none, some b =>
    match L.max_height with
    | .error e => .error e
    | .ok mh => .ok (L.center_y_apply (b - mh) b)
  | some t, none =>
    match L.max_height with
    | .error e => .error e
    | .ok mh => .ok (L.center_y_apply t (t + mh))
  | some t, some b => .ok (L.center_y_apply t b)

/-- The scan loop of `Layout.find_hotspot(x, y)`: first element whose
hotspot tag is set and whose rect contains the point wins; elements without
a tag, or not containing the point, are passed over. -/
def Layout.find_hotspot_scan {δ τ : Type} :
    List (LayoutElement δ τ) → Int → Int → Option (τ × Int × Int)
  | [], _, _ => none
  | e :: rest, x, y =>
    match e.hotspot with
    | some hs =>
      if e.rect.is_point_inside x y then some (hs, x - e.rect.x, y - e.rect.y)
      else Layout.find_hotspot_scan rest x y
    | none => Layout.find_hotspot_scan rest x y

/-- `Layout.find_hotspot(x, y)`. -/
def Layout.find_hotspot {δ τ : Type} (L : Layout δ τ) (x y : Int) :
    Option (τ × Int × Int) :=
  Layout.find_hotspot_scan L._rects x y

theorem scan_cons_hot {δ τ : Type} (e : LayoutElement δ τ)
    (rest : List (LayoutElement δ τ)) (x y : Int) (hs : τ)
    (he : e.hotspot = some hs) (hin : e.rect.is_point_inside x y = true) :
    Layout.find_hotspot_scan (e :: rest) x y
      = some (hs, x - e.rect.x, y - e.rect.y) := by
  simp only [Layout.find_hotspot_scan, he]
  rw [if_pos hin]

theorem scan_cons_miss {δ τ : Type} (e : LayoutElement δ τ)
    (rest : List (LayoutElement δ τ)) (x y : Int)
    (hmiss : e.hotspot = none ∨ e.rect.is_point_inside x y = false) :
    Layout.find_hotspot_scan (e :: rest) x y
      = Layout.find_hotspot_scan rest x y := by
  rcases hmiss with h | h
  · simp only [Layout.find_hotspot_scan, h]
  · simp only [Layout.find_hotspot_scan]
    split
    · rw [if_neg (by rw [h]; simp)]
    · rfl

theorem find_hotspot_scan_none {δ τ : Type} (x y : Int) :
    ∀ l : List (LayoutElement δ τ),
      Layout.find_hotspot_scan l x y = none ↔
      ∀ f ∈ l, f.hotspot = none ∨ f.rect.is_point_inside x y = false := by
  intro l
  induction l with
  | nil => simp [Layout.find_hotspot_scan]
  | cons e rest ih =>
    by_cases hmiss : e.hotspot = none ∨ e.rect.is_point_inside x y = false
    · rw [scan_cons_miss e rest x y hmiss, ih]
      constructor
      · intro hall f hf
        rcases List.mem_cons.mp hf with rfl | hf
        · exact hmiss
        · exact hall f hf
      · intro hall f hf
        exact hall f (List.mem_cons_of_mem _ hf)
    · push_neg at hmiss
      obtain ⟨hsome, hin⟩ := hmiss
      obtain ⟨hs, he⟩ := Option.ne_none_iff_exists.mp hsome
      have hin2 : e.rect.is_point_inside x y = true := by
        cases h2 : e.rect.is_point_inside x y
        · exact absurd h2 hin
        · rfl
      rw [scan_cons_hot e rest x y hs he.symm hin2]
      constructor
      · intro habs; cases habs
      · intro hall
        rcases hall e (List.mem_cons_self e rest) with h | h
        · rw [h] at he; cases he
        · rw [hin2] at h; cases h

theorem find_hotspot_scan_some {δ τ : Type} (x y : Int) :
    ∀ (l : List (LayoutElement δ τ)) (t : τ) (rx ry : Int),
      Layout.find_hotspot_scan l x y = some (t, rx, ry) ↔
      ∃ pre e post, l = pre ++ e :: post ∧
        (∀ f ∈ pre, f.hotspot = none ∨ f.rect.is_point_inside x y = false) ∧
        e.hotspot = some t ∧ e.rect.is_point_inside x y = true ∧
        rx = x - e.rect.x ∧ ry = y - e.rect.y := by
  intro l
  induction l with
  | nil =>
    intro t rx ry
    simp [Layout.find_hotspot_scan]
  | cons e rest ih =>
    intro t rx ry
    by_cases hmiss : e.hotspot = none ∨ e.rect.is_point_inside x y = false
    · rw [scan_cons_miss e rest x y hmiss, ih]
      constructor
      · rintro ⟨pre, f, post, hsplit, hpre, hf⟩
        refine ⟨e :: pre, f, post, by rw [hsplit]; rfl, ?_, hf⟩
        intro g hg
        rcases List.mem_cons.mp hg with rfl | hg
        · exact hmiss
        · exact hpre g hg
      · rintro ⟨pre, f, post, hsplit, hpre, hf⟩
        cases pre with
        | nil =>
          simp only [List.nil_append, List.cons.injEq] at hsplit
          obtain ⟨rfl, rfl⟩ := hsplit
          rcases hmiss with h | h
          · rw [hf.1] at h; cases h
          · rw [hf.2.1] at h; cases h
        | cons g pre2 =>
          simp only [List.cons_append, List.cons.injEq] at hsplit
          obtain ⟨rfl, hsplit2⟩ := hsplit
          exact ⟨pre2, f, post, hsplit2, fun g2 hg2 =>
            hpre g2 (List.mem_cons_of_mem _ hg2), hf⟩
    · push_neg at hmiss
      obtain ⟨hsome, hin⟩ := hmiss
      obtain ⟨hs, he⟩ := Option.ne_none_iff_exists.mp hsome
      have hin2 : e.rect.is_point_inside x y = true := by
        cases h2 : e.rect.is_point_inside x y
        · exact absurd h2 hin
        · rfl
      rw [scan_cons_hot e rest x y hs he.symm hin2]
      constructor
      · intro hsome2
        have h1 : hs = t ∧ x - e.rect.x = rx ∧ y - e.rect.y = ry := by
          simpa using hsome2
        obtain ⟨rfl, h2, h3⟩ := h1
        exact ⟨[], e, rest, by simp, by simp, he.symm, hin2, h2.symm, h3.symm⟩
      · rintro ⟨pre, f, post, hsplit, hpre, hf1, hf2, hf3, hf4⟩
        cases pre with
        | nil =>
          simp only [List.nil_append, List.cons.injEq] at hsplit
          obtain ⟨rfl, rfl⟩ := hsplit
          rw [← he] at hf1
          injection hf1 with hts
          rw [hts, hf3, hf4]
        | cons g pre2 =>
          simp only [List.cons_append, List.cons.injEq] at hsplit
          obtain ⟨rfl, hsplit2⟩ := hsplit
          rcases hpre e (List.mem_cons_self e pre2) with h | h
          · rw [h] at he; cases he
          · rw [hin2] at h; cases h

/-- C5: `Layout.find_hotspot` scans `_rects` in insertion order and yields,
for the first element whose rect contains the point and whose hotspot tag is
set, the tag with coordinates relative to the rect's top-left; untagged
elements are transparent even when they contain the point, and the result
is `None` exactly when no tagged rect contains the point. -/
theorem C5_layout_find_hotspot {δ τ : Type} (L : Layout δ τ) (x y : Int) :
    (∀ t rx ry, L.find_hotspot x y = some (t, rx, ry) ↔
      ∃ pre e post, L._rects = pre ++ e :: post ∧
        (∀ f ∈ pre, f.hotspot = none ∨ f.rect.is_point_inside x y = false) ∧
        e.hotspot = some t ∧ e.rect.is_point_inside x y = true ∧
        rx = x - e.rect.x ∧ ry = y - e.rect.y) ∧
    (L.find_hotspot x y = none ↔
      ∀ f ∈ L._rects, f.hotspot = none ∨ f.rect.is_point_inside x y = false) :=
  ⟨fun t rx ry => find_hotspot_scan_some x y L._rects t rx ry,
   find_hotspot_scan_none x y L._rects⟩

/-- The empty layout (no elements), with both type parameters `Nat`. -/
def emptyLayout : Layout Nat Nat := ⟨[], none⟩

/-- C6 counterexample: with exactly one bound supplied on an empty layout,
`center_x` (resp. `center_y`) still raises: deriving the missing bound calls
`max_width()` (resp. `max_height()`), and Python `max` over the empty
sequence raises `ValueError`; the claim asserts the call raises only when
both bounds are `None` and completes whenever at least one is supplied. -/
theorem C6_counterexample :
    Layout.center_x emptyLayout (some 0) none
      = .error "ValueError: max arg is an empty sequence" ∧
    Layout.center_y emptyLayout none (some 7)
      = .error "ValueError: max arg is an empty sequence" :=
  ⟨rfl, rfl⟩

/-- C6 (amended): `center_x` (resp. `center_y`) raises exactly when both its
bounds are `None`, or when exactly one bound is supplied and the layout has
no elements (the derived bound queries the maximum element width resp.
height, which raises on an empty layout); the raise precedes the mutation
loop, and on success every rect is centered within the resolved area, whose
extent is `max_width` resp. `max_height` whenever a bound was derived. -/
theorem C6_center_error_iff {δ τ : Type} (L : Layout δ τ)
    (left right top bottom : Option Int) :
    ((∃ e, L.center_x left right = .error e) ↔
      (left = none ∧ right = none) ∨
      ((left = none ∨ right = none) ∧ L._rects = [])) ∧
    ((∃ e, L.center_y top bottom = .error e) ↔
      (top = none ∧ bottom = none) ∨
      ((top = none ∨ bottom = none) ∧ L._rects = [])) ∧
    (∀ L2, L.center_x left right = .ok L2 →
      ∃ lv rv, L2 = L.center_x_apply lv rv ∧
        ((left = some lv ∧ right = some rv) ∨
         (L.max_width = .ok (rv - lv) ∧ (left = some lv ∨ right = some rv)))) ∧
    (∀ L2, L.center_y top bottom = .ok L2 →
      ∃ tv bv, L2 = L.center_y_apply tv bv ∧
        ((top = some tv ∧ bottom = some bv) ∨
         (L.max_height = .ok (bv - tv) ∧ (top = some tv ∨ bottom = some bv)))) := by
  refine ⟨?_, ?_, ?_, ?_⟩
  · cases left with
    | none =>
      cases right with
      | none => simp [Layout.center_x]
      | some r =>
        cases hL : L._rects with
        | nil => simp [Layout.center_x, Layout.max_width, hL]
        | cons f fs => simp [Layout.center_x, Layout.max_width, hL]
    | some l =>
      cases right with
      | none =>
        cases hL : L._rects with
        | nil => simp [Layout.center_x, Layout.max_width, hL]
        | cons f fs => simp [Layout.center_x, Layout.max_width, hL]
      | some r => simp [Layout.center_x]
  · cases top with
    | none =>
      cases bottom with
      | none => simp [Layout.center_y]
      | some b =>
        cases hL : L._rects with
        | nil => simp [Layout.center_y, Layout.max_height, hL]
        | cons f fs => simp [Layout.center_y, Layout.max_height, hL]
    | some t =>
      cases bottom with
      | none =>
        cases hL : L._rects with
        | nil => simp [Layout.center_y, Layout.max_height, hL]
        | cons f fs => simp [Layout.center_y, Layout.max_height, hL]
      | some b => simp [Layout.center_y]
  · intro L2 hok
    cases left with
    | none =>
      cases right with
      | none => simp [Layout.center_x] at hok
      | some r =>
        cases hmw : L.max_width with
        | error e => simp [Layout.center_x, hmw] at hok
        | ok mw =>
          simp only [Layout.center_x, hmw] at hok
          injection hok with h
          exact ⟨r - mw, r, h.symm,
            Or.inr ⟨congrArg Except.ok (by ring), Or.inr rfl⟩⟩
    | some l =>
      cases right with
      | none =>
        cases hmw : L.max_width with
        | error e => simp [Layout.center_x, hmw] at hok
        | ok mw =>
          simp only [Layout.center_x, hmw] at hok
          injection hok with h
          exact ⟨l, l + mw, h.symm,
            Or.inr ⟨congrArg Except.ok (by ring), Or.inl rfl⟩⟩
      | some r =>
        simp only [Layout.center_x] at hok
        injection hok with h
        exact ⟨l, r, h.symm, Or.inl ⟨rfl, rfl⟩⟩
  · intro L2 hok
    cases top with
    | none =>
      cases bottom with
      | none => simp [Layout.center_y] at hok
      | some b =>
        cases hmh : L.max_height with
        | error e => simp [Layout.center_y, hmh] at hok
        | ok mh =>
          simp only [Layout.center_y, hmh] at hok
          injection hok with h
          exact ⟨b - mh, b, h.symm,
            Or.inr ⟨congrArg Except.ok (by ring), Or.inr rfl⟩⟩
    | some t =>
      cases bottom with
      | none =>
        cases hmh : L.max_height with
        | error e => simp [Layout.center_y, hmh] at hok
        | ok mh =>
          simp only [Layout.center_y, hmh] at hok
          injection hok with h
          exact ⟨t, t + mh, h.symm,
            Or.inr ⟨congrArg Except.ok (by ring), Or.inl rfl⟩⟩
      | some b =>
        simp only [Layout.center_y] at hok
        injection hok with h
        exact ⟨t, b, h.symm, Or.inl ⟨rfl, rfl⟩⟩

/-- A one-element layout used by the witnesses. -/
def oneLayout : Layout Nat Nat :=
  ⟨[⟨⟨0, 0, 10, 4⟩, none, some 3⟩], some ⟨0, 0, 10, 4⟩⟩

theorem C6_center_error_iff_witness :
    ∃ lv rv, oneLayout.center_x_apply 0 10 = oneLayout.center_x_apply lv rv ∧
      (((some 0 : Option Int) = some lv ∧ (some 10 : Option Int) = some rv) ∨
       (oneLayout.max_width = .ok (rv - lv) ∧
        ((some 0 : Option Int) = some lv ∨ (some 10 : Option Int) = some rv))) :=
  (C6_center_error_iff oneLayout (some 0) (some 10) none none).2.2.1
    (oneLayout.center_x_apply 0 10) rfl

/-- C10: `translate` adds `delta_x` to each element rect's `x` and `delta_y`
to its `y`, and changes nothing else: the element count and order are
preserved and each element keeps its width, height, drawing function and
hotspot tag. -/
theorem C10_layout_translate {δ τ : Type} (L : Layout δ τ) (dx dy : Int) :
    ((L.translate dx dy)._rects.length = L._rects.length) ∧
    ∀ i e e2, L._rects.get? i = some e →
      (L.translate dx dy)._rects.get? i = some e2 →
      e2.rect.x = e.rect.x + dx ∧ e2.rect.y = e.rect.y + dy ∧
      e2.rect.width = e.rect.width ∧ e2.rect.height = e.rect.height ∧
      e2.drawing_function = e.drawing_function ∧ e2.hotspot = e.hotspot := by
  constructor
  · simp [Layout.translate]
  · intro i e e2 he he2
    simp only [Layout.translate, List.get?_map, he, Option.map_some'] at he2
    injection he2 with h
    subst h
    simp

/-- A child value lacking both the draw and the size-query capability. -/
def wBad : Widget := ⟨9, false, false, (0, 0)⟩

/-- C7 counterexample: `Table.pack` performs no capability validation: a
child lacking both `draw` and `get_size` is accepted at an in-range cell,
where the claim says every packer with a pack operation (Box, Table, Stack)
rejects such a child at pack time with an error. -/
theorem C7_counterexample :
    ∃ t2, Table.pack (Table.make 1 1 0 0) wBad 0 0 false = .ok t2 ∧
      wBad.hasDraw = false ∧ wBad.hasGetSize = false :=
  ⟨_, rfl, rfl, rfl⟩

/-- C7 (amended): only `Box.pack` and `Box.pack_end` validate children,
raising `TypeError` exactly when the child lacks the `draw` or the
`get_size` capability (and accepting it when it has both); `Table.pack`
accepts any child at an in-range cell with no capability check, and
`Stack.pack` appends any packer unconditionally. -/
theorem C7_pack_validation (b : Box) (child : Widget) (expand : Bool)
    (t : Table) (row column : Nat) (r : List (Option TablePacking))
    (hrow : t.table_multiarray.get? row = some r) (hcol : column < r.length)
    (s : List SPacker) (p : SPacker) :
    ((∃ b2, b.pack child expand = .ok b2) ↔
      (child.hasDraw && child.hasGetSize) = true) ∧
    ((∃ b2, b.pack_end child expand = .ok b2) ↔
      (child.hasDraw && child.hasGetSize) = true) ∧
    (∃ t2, t.pack child row column expand = .ok t2) ∧
    Stack.pack s p = s ++ [p] := by
  refine ⟨?_, ?_, ?_, rfl⟩
  · unfold Box.pack
    by_cases hc : (child.hasDraw && child.hasGetSize) = true
    · simp [hc]
    · simp [hc]
  · unfold Box.pack_end
    by_cases hc : (child.hasDraw && child.hasGetSize) = true
    · simp [hc]
    · simp [hc]
  · unfold Table.pack
    simp only [hrow]
    rw [if_pos hcol]
    exact ⟨_, rfl⟩

theorem C7_pack_validation_witness :
    ((Table.make 1 1 0 0).table_multiarray.get? 0
        = some [(none : Option TablePacking)]) ∧
    (∃ t2, (Table.make 1 1 0 0).pack wBad 0 0 false = .ok t2) :=
  ⟨rfl, (C7_pack_validation ⟨0, [], []⟩ wBad false (Table.make 1 1 0 0) 0 0
      [(none : Option TablePacking)] rfl (by decide) []
      (SPacker.drawing_area 1 1)).2.2.1⟩

/-- C8: composing `inner_rect` with `outer_size` round-trips the size: for
any margin constructor argument (`None` or a `(top, right, bottom, left)`
4-tuple) and any rect, `outer_size` applied to the width and height
components of `inner_rect(x, y, width, height)` yields exactly
`(width, height)`. -/
theorem C8_margin_roundtrip (margin : Option (Int × Int × Int × Int))
    (x y width height : Int) :
    (Margin.make margin).outer_size
      (((Margin.make margin).inner_rect x y width height).2.2.1,
       ((Margin.make margin).inner_rect x y width height).2.2.2)
      = (width, height) := by
  cases margin with
  | none => simp [Margin.make, Margin.inner_rect, Margin.outer_size]
  | some m =>
    obtain ⟨t, r, b, l⟩ := m
    simp only [Margin.make, Margin.inner_rect, Margin.outer_size,
      Prod.mk.injEq]
    constructor <;> ring

/-- The memoized-size state of a `Packer` instance: `_size` models the
`self._size` attribute, absent (`none`) until the first `get_size()` call
stores it (the `except AttributeError` branch).  Instantiated at `Box`, the
packer whose children can be mutated after sizing. -/
structure PackerState where
  box : Box
  _size : Option (Int × Int)
deriving DecidableEq

/-- `Packer.get_size()`: returns `self._size` when present, otherwise
computes `self._calc_size()`, stores it, and returns it; modelled as a
(value, updated instance) pair. -/
def PackerState.get_size (s : PackerState) : (Int × Int) × PackerState :=
  match s._size with
  | some sz => (sz, s)
  | none =>
    let sz := s.box._calc_size
    (sz, { s with _size := some sz })

/-- `Packer.get_current_size()`: always recomputes `_calc_size()`. -/
def PackerState.get_current_size (s : PackerState) : Int × Int :=
  s.box._calc_size

/-- `Box.pack_space` lifted to the instance state: it mutates the children
but never touches the `_size` attribute. -/
def PackerState.pack_space (s : PackerState) (size : Int) (expand : Bool) :
    PackerState :=
  { s with box := s.box.pack_space size expand }

/-- C9: on a fresh instance the first `get_size()` call returns
`_calc_size()` and memoizes it; after any sequence of subsequent
`pack_space` child additions, `get_size()` still returns the originally
memoized value unchanged (and leaves the instance as it was), while
`get_current_size()` recomputes `_calc_size` over the current children. -/
theorem C9_get_size_memoized (b : Box) (adds : List (Int × Bool)) :
    ((PackerState.mk b none).get_size).1 = b._calc_size ∧
    (((PackerState.mk b none).get_size).2)._size = some b._calc_size ∧
    (adds.foldl (fun s a => s.pack_space a.1 a.2)
        ((PackerState.mk b none).get_size).2).get_size
      = (b._calc_size,
         adds.foldl (fun s a => s.pack_space a.1 a.2)
           ((PackerState.mk b none).get_size).2) ∧
    (adds.foldl (fun s a => s.pack_space a.1 a.2)
        ((PackerState.mk b none).get_size).2).get_current_size
      = (adds.foldl (fun s a => s.pack_space a.1 a.2)
          ((PackerState.mk b none).get_size).2).box._calc_size := by
  have hsize : ∀ (l : List (Int × Bool)) (s0 : PackerState),
      (l.foldl (fun s a => s.pack_space a.1 a.2) s0)._size = s0._size := by
    intro l
    induction l with
    | nil => intro s0; rfl
    | cons a rest ih =>
      intro s0
      rw [List.foldl_cons]
      exact ih _
  refine ⟨rfl, rfl, ?_, rfl⟩
  have h1 : (adds.foldl (fun s a => s.pack_space a.1 a.2)
      (PackerState.mk b (some b._calc_size)))._size = some b._calc_size := by
    rw [hsize]
  simp only [PackerState.get_size, h1]

theorem C10_layout_translate_witness :
    (oneLayout._rects.get? 0
        = some ⟨⟨0, 0, 10, 4⟩, (none : Option Nat), some 3⟩ ∧
     (oneLayout.translate 2 5)._rects.get? 0
        = some ⟨⟨2, 5, 10, 4⟩, (none : Option Nat), some 3⟩) ∧
    ((LayoutElement.mk ⟨2, 5, 10, 4⟩ (none : Option Nat) (some 3)).rect.x
        = (LayoutElement.mk ⟨0, 0, 10, 4⟩ (none : Option Nat) (some 3)).rect.x + 2 ∧
     (LayoutElement.mk ⟨2, 5, 10, 4⟩ (none : Option Nat) (some 3)).rect.y
        = (LayoutElement.mk ⟨0, 0, 10, 4⟩ (none : Option Nat) (some 3)).rect.y + 5 ∧
     (LayoutElement.mk ⟨2, 5, 10, 4⟩ (none : Option Nat) (some 3)).rect.width
        = (LayoutElement.mk ⟨0, 0, 10, 4⟩ (none : Option Nat) (some 3)).rect.width ∧
     (LayoutElement.mk ⟨2, 5, 10, 4⟩ (none : Option Nat) (some 3)).rect.height
        = (LayoutElement.mk ⟨0, 0, 10, 4⟩ (none : Option Nat) (some 3)).rect.height ∧
     (LayoutElement.mk ⟨2, 5, 10, 4⟩ (none : Option Nat) (some 3)).drawing_function
        = (LayoutElement.mk ⟨0, 0, 10, 4⟩ (none : Option Nat) (some 3)).drawing_function ∧
     (LayoutElement.mk ⟨2, 5, 10, 4⟩ (none : Option Nat) (some 3)).hotspot
        = (LayoutElement.mk ⟨0, 0, 10, 4⟩ (none : Option Nat) (some 3)).hotspot) :=
  ⟨⟨rfl, rfl⟩,
   (C10_layout_translate oneLayout 2 5).2 0
     ⟨⟨0, 0, 10, 4⟩, none, some 3⟩ ⟨⟨2, 5, 10, 4⟩, none, some 3⟩ rfl rfl⟩
